import Mathlib

/-!
Verification of the TechspecAnalyzer repository: a shallow embedding of its
parameter-extraction and compatibility-decision engine, and theorems checking
the specification's claims against it.

The engine's text processing is built on Python's re module. The patterns the
repository uses need only a small regular-expression language: character
classes, sequencing, ordered alternation, greedy option, and greedy star and
plus over character classes. The embedding below implements exactly that
language with Python's leftmost search and ordered-backtracking semantics
(first alternative first, longest repetition first), case-insensitivity
encoded in the character classes. Numbers are modelled by the rationals: every
numeric literal the repository parses is a short decimal string.
-/

set_option autoImplicit false

namespace TechSpec

/-- Python str.lower for the ASCII letters (the only cased characters the
repository's patterns and keyword lists use). -/
def toLowerPy (c : Char) : Char :=
  if 65 ≤ c.toNat ∧ c.toNat ≤ 90 then Char.ofNat (c.toNat + 32) else c

/-- The characters matched by the regex class backslash-s and stripped by
Python str.strip (ASCII whitespace). -/
def isSpacePy (c : Char) : Bool :=
  c == ' ' || c == '\t' || c == '\n' || c == '\r' || c == '\x0b' || c == '\x0c'

/-- The regex classes backslash-d and zero-to-nine. -/
def isDigitC (c : Char) : Bool :=
  48 ≤ c.toNat && c.toNat ≤ 57

/-- Python str.strip with no argument: ASCII whitespace removed at both ends. -/
def pyStrip (s : List Char) : List Char :=
  ((s.dropWhile isSpacePy).reverse.dropWhile isSpacePy).reverse

/-- Python str.lower over a whole string. -/
def pyLower (s : List Char) : List Char := s.map toLowerPy

/-- Shorthand turning a Lean string literal into the character-list
representation used throughout the embedding. -/
def lc (s : String) : List Char := s.data

/-- The value of a nonempty digit string, most significant digit first. -/
def digitsToNat (l : List Char) : ℕ :=
  l.foldl (fun n c => 10 * n + (c.toNat - 48)) 0

/-- Python float() as applied by the repository: its argument is always a
regex match of the shape digits optionally followed by a dot and digits, and
on that shape the conversion yields the exact decimal value. Any other shape
returns none, modelling the ValueError float() would raise. -/
def pyFloat (s : List Char) : Option ℚ :=
  let ip := s.takeWhile isDigitC
  let rest := s.dropWhile isDigitC
  if ip.isEmpty then none
  else
    match rest with
    | [] => some (digitsToNat ip)
    | c :: fp =>
      if c == '.' && !fp.isEmpty && fp.all isDigitC then
        some ((digitsToNat ip : ℚ) + (digitsToNat fp : ℚ) / (10 : ℚ) ^ fp.length)
      else none

/-- The regular-expression language covering every pattern in the repository:
empty, single-character class, sequence, ordered alternation, greedy option,
and greedy star over a character class (plus is a class followed by its star). -/
inductive Reg : Type where
  | eps : Reg
  | cls : (Char → Bool) → Reg
  | seq : Reg → Reg → Reg
  | alt : Reg → Reg → Reg
  | opt : Reg → Reg
  | star : (Char → Bool) → Reg

/-- First-success choice on Option, written out so its equations are direct. -/
def oalt {α : Type} (a b : Option α) : Option α :=
  match a with
  | some x => some x
  | none => b

/-- Greedy matching of a character-class star: consume the longest run first,
backtracking one character at a time into the continuation. -/
def greedy {α : Type} (p : Char → Bool) (k : List Char → Option α) :
    List Char → Option α
  | [] => k []
  | c :: rest =>
    if p c then oalt (greedy p k rest) (k (c :: rest)) else k (c :: rest)

/-- Backtracking matcher in continuation-passing style: the continuation
receives the unconsumed suffix, and the first success in Python's preference
order (left alternative first, longest repetition first, option taken before
skipped) is returned. -/
def matchR {α : Type} : Reg → List Char → (List Char → Option α) → Option α
  | .eps, s, k => k s
  | .cls p, s, k =>
    match s with
    | [] => none
    | c :: rest => if p c then k rest else none
  | .seq a b, s, k => matchR a s (fun t => matchR b t k)
  | .alt a b, s, k => oalt (matchR a s k) (matchR b s k)
  | .opt a, s, k => oalt (matchR a s k) (k s)
  | .star p, s, k => greedy p k s

/-- A compiled pattern: every regex the repository searches or finds with has
exactly one capturing group, so a pattern is the part before the group, the
group itself, and the part after it. -/
structure Pat where
  pre : Reg
  grp : Reg
  post : Reg

/-- Attempt a match of the whole pattern at the start of the suffix s. On
success the result is the three remaining suffixes: after the pre part, after
the group, and after the whole match. -/
def tryAt (pt : Pat) (s : List Char) : Option (List Char × List Char × List Char) :=
  matchR pt.pre s fun s1 =>
    matchR pt.grp s1 fun s2 =>
      matchR pt.post s2 fun s3 => some (s1, s2, s3)

/-- A match as Python exposes it: start and end offsets in the full text,
group(1) and group(0). -/
structure MatchInfo where
  mstart : Nat
  mend : Nat
  grp : List Char
  whole : List Char
deriving DecidableEq

/-- Build the MatchInfo for a successful tryAt at global offset i on suffix s. -/
def mkInfo (i : Nat) (s : List Char) (t : List Char × List Char × List Char) :
    MatchInfo :=
  { mstart := i
    mend := i + (s.length - t.2.2.length)
    grp := t.1.take (t.1.length - t.2.1.length)
    whole := s.take (s.length - t.2.2.length) }

/-- Python re.search scanning: try each start position left to right; also
returns the suffix after the match so iteration can continue. -/
def searchFrom (pt : Pat) : Nat → List Char → Option (MatchInfo × List Char)
  | i, [] => (tryAt pt []).map fun t => (mkInfo i [] t, t.2.2)
  | i, c :: rest =>
    match tryAt pt (c :: rest) with
    | some t => some (mkInfo i (c :: rest) t, t.2.2)
    | none => searchFrom pt (i + 1) rest

/-- Python re.search: the leftmost match, or none. -/
def search (pt : Pat) (s : List Char) : Option MatchInfo :=
  (searchFrom pt 0 s).map Prod.fst

/-- Python re.finditer, fuelled: after each match scanning continues at the
match end (the repository's patterns never match the empty string; a
zero-width match would advance one position). -/
def finditerAux (pt : Pat) : Nat → Nat → List Char → List MatchInfo
  | 0, _, _ => []
  | fuel + 1, i, s =>
    match searchFrom pt i s with
    | none => []
    | some (m, rest) =>
      if m.mstart < m.mend then m :: finditerAux pt fuel m.mend rest
      else m :: finditerAux pt fuel (m.mend + 1) (rest.drop 1)

/-- Python re.finditer: all non-overlapping matches, leftmost first. The fuel
bounds the number of iterations; it cannot run out before scanning fails. -/
def finditer (pt : Pat) (s : List Char) : List MatchInfo :=
  finditerAux pt (s.length + 1) 0 s

/-- Existence of a match of a bare regex anywhere in s (Python re.search used
only as a truth value). -/
def searchB (r : Reg) : List Char → Bool
  | [] => (matchR r [] fun _ => some ()).isSome
  | c :: rest =>
    if (matchR r (c :: rest) fun _ => some ()).isSome then true
    else searchB r rest

/-- Case-insensitive literal from a character list, one class per character. -/
def istrL : List Char → Reg
  | [] => .eps
  | c :: rest => .seq (.cls fun d => toLowerPy d == toLowerPy c) (istrL rest)

/-- Case-insensitive literal (patterns compiled with re.IGNORECASE). -/
def istr (s : String) : Reg := istrL s.data

/-- Case-sensitive literal from a character list. -/
def estrL : List Char → Reg
  | [] => .eps
  | c :: rest => .seq (.cls fun d => d == c) (estrL rest)

/-- Case-sensitive literal (patterns compiled without flags). -/
def estr (s : String) : Reg := estrL s.data

/-- Sequence of a list of regexes. -/
def rseq (l : List Reg) : Reg := l.foldr Reg.seq .eps

/-- Ordered alternation of a nonempty list of regexes. -/
def ralt : List Reg → Reg
  | [] => .cls fun _ => false
  | [r] => r
  | r :: rest => .alt r (ralt rest)

/-- Greedy plus over a character class. -/
def rplus (p : Char → Bool) : Reg := .seq (.cls p) (.star p)

/-- The regex star over backslash-s. -/
def ws : Reg := .star isSpacePy

/-- The regex plus over backslash-s. -/
def ws1 : Reg := rplus isSpacePy

/-- One or more digits. -/
def digits1 : Reg := rplus isDigitC

/-- A dot followed by one or more digits (the optional fractional part). -/
def fracReg : Reg := .seq (.cls fun c => c == '.') digits1

/-- The number regex used throughout the repository: digits with an optional
dot-digits fractional part. -/
def numReg : Reg := .seq digits1 (.opt fracReg)

/-- The language of a regex: which character segments it can consume. -/
inductive Matches : Reg → List Char → Prop where
  | eps : Matches .eps []
  | cls {p : Char → Bool} {c : Char} : p c = true → Matches (.cls p) [c]
  | seqM {a b : Reg} {u v : List Char} :
      Matches a u → Matches b v → Matches (.seq a b) (u ++ v)
  | altL {a b : Reg} {u : List Char} : Matches a u → Matches (.alt a b) u
  | altR {a b : Reg} {u : List Char} : Matches b u → Matches (.alt a b) u
  | optS {a : Reg} {u : List Char} : Matches a u → Matches (.opt a) u
  | optN {a : Reg} : Matches (.opt a) []
  | star {p : Char → Bool} {u : List Char} :
      (∀ c ∈ u, p c = true) → Matches (.star p) u

theorem oalt_eq_some {α : Type} {a b : Option α} {x : α}
    (h : oalt a b = some x) : a = some x ∨ (a = none ∧ b = some x) := by
  cases a with
  | some y => exact Or.inl h
  | none => exact Or.inr ⟨rfl, h⟩

theorem greedy_sound {α : Type} {p : Char → Bool} {k : List Char → Option α} :
    ∀ {s : List Char} {a : α}, greedy p k s = some a →
      ∃ u v, s = u ++ v ∧ (∀ c ∈ u, p c = true) ∧ k v = some a := by
  intro s
  induction s with
  | nil =>
    intro a h
    exact ⟨[], [], rfl, by simp, h⟩
  | cons c rest ih =>
    intro a h
    simp only [greedy] at h
    by_cases hp : p c = true
    · rw [if_pos hp] at h
      rcases oalt_eq_some h with h1 | ⟨_, h2⟩
      · rcases ih h1 with ⟨u, v, hs, hall, hk⟩
        refine ⟨c :: u, v, by simp [hs], ?_, hk⟩
        intro d hd
        rcases List.mem_cons.mp hd with rfl | hd
        · exact hp
        · exact hall d hd
      · exact ⟨[], c :: rest, rfl, by simp, h2⟩
    · rw [if_neg hp] at h
      exact ⟨[], c :: rest, rfl, by simp, h⟩

theorem matchR_sound {α : Type} :
    ∀ (r : Reg) {s : List Char} {k : List Char → Option α} {a : α},
      matchR r s k = some a →
      ∃ u v, s = u ++ v ∧ Matches r u ∧ k v = some a := by
  intro r
  induction r with
  | eps =>
    intro s k a h
    exact ⟨[], s, rfl, Matches.eps, h⟩
  | cls p =>
    intro s k a h
    match s with
    | [] => simp [matchR] at h
    | c :: rest =>
      simp only [matchR] at h
      by_cases hp : p c = true
      · rw [if_pos hp] at h
        exact ⟨[c], rest, rfl, Matches.cls hp, h⟩
      · rw [if_neg hp] at h
        exact absurd h (by simp)
  | seq a b iha ihb =>
    intro s k x h
    simp only [matchR] at h
    rcases iha h with ⟨u1, v1, hs1, hm1, hk1⟩
    rcases ihb hk1 with ⟨u2, v2, hs2, hm2, hk2⟩
    exact ⟨u1 ++ u2, v2, by simp [hs1, hs2], Matches.seqM hm1 hm2, hk2⟩
  | alt a b iha ihb =>
    intro s k x h
    simp only [matchR] at h
    rcases oalt_eq_some h with h1 | ⟨_, h2⟩
    · rcases iha h1 with ⟨u, v, hs, hm, hk⟩
      exact ⟨u, v, hs, Matches.altL hm, hk⟩
    · rcases ihb h2 with ⟨u, v, hs, hm, hk⟩
      exact ⟨u, v, hs, Matches.altR hm, hk⟩
  | opt a iha =>
    intro s k x h
    simp only [matchR] at h
    rcases oalt_eq_some h with h1 | ⟨_, h2⟩
    · rcases iha h1 with ⟨u, v, hs, hm, hk⟩
      exact ⟨u, v, hs, Matches.optS hm, hk⟩
    · exact ⟨[], s, rfl, Matches.optN, h2⟩
  | star p =>
    intro s k x h
    simp only [matchR] at h
    rcases greedy_sound h with ⟨u, v, hs, hall, hk⟩
    exact ⟨u, v, hs, Matches.star hall, hk⟩

/-- Structure of a successful anchored attempt: the text splits into the pre
part, the group, the post part and the remainder, and the three returned
suffixes are exactly the corresponding tails. -/
theorem tryAt_sound {pt : Pat} {s s1 s2 s3 : List Char}
    (h : tryAt pt s = some (s1, s2, s3)) :
    ∃ u0 u1 u2, s = u0 ++ (u1 ++ (u2 ++ s3)) ∧
      Matches pt.pre u0 ∧ Matches pt.grp u1 ∧ Matches pt.post u2 ∧
      s1 = u1 ++ (u2 ++ s3) ∧ s2 = u2 ++ s3 := by
  unfold tryAt at h
  rcases matchR_sound _ h with ⟨u0, v0, hs0, hm0, hk0⟩
  rcases matchR_sound _ hk0 with ⟨u1, v1, hs1, hm1, hk1⟩
  rcases matchR_sound _ hk1 with ⟨u2, v2, hs2, hm2, hk2⟩
  have he : s1 = v0 ∧ s2 = v1 ∧ s3 = v2 := by
    have := Option.some.inj hk2
    refine ⟨?_, ?_, ?_⟩ <;> cases this <;> rfl
  rcases he with ⟨e1, e2, e3⟩
  subst e1; subst e2; subst e3
  exact ⟨u0, u1, u2, by rw [hs0, hs1, hs2], hm0, hm1, hm2, by rw [hs1, hs2], hs2⟩

theorem take_len_append {α : Type} (u v : List α) :
    (u ++ v).take ((u ++ v).length - v.length) = u := by
  have : (u ++ v).length - v.length = u.length := by
    simp [List.length_append]
  rw [this]
  exact List.take_left u v

/-- Any match found by scanning starts at a suffix of the text, and its
captured group is a word of the group regex. -/
theorem searchFrom_sound {pt : Pat} :
    ∀ {i : Nat} {s : List Char} {m : MatchInfo} {rest : List Char},
      searchFrom pt i s = some (m, rest) →
      ∃ t u0 u1 u2, (t <:+ s) ∧ t = u0 ++ (u1 ++ (u2 ++ rest)) ∧
        Matches pt.pre u0 ∧ Matches pt.grp u1 ∧ Matches pt.post u2 ∧
        m.grp = u1 := by
  intro i s
  induction s generalizing i with
  | nil =>
    intro m rest h
    simp only [searchFrom, Option.map_eq_some'] at h
    rcases h with ⟨t, ht, he⟩
    obtain ⟨rfl, rfl⟩ : mkInfo i [] t = m ∧ t.2.2 = rest := by
      cases he; exact ⟨rfl, rfl⟩
    rcases tryAt_sound (by rw [ht]) with ⟨u0, u1, u2, hsplit, h0, h1, h2, e1, e2⟩
    refine ⟨[], u0, u1, u2, List.suffix_refl [], hsplit, h0, h1, h2, ?_⟩
    simp only [mkInfo, e1, e2]
    have : (u1 ++ (u2 ++ t.2.2)).length - (u2 ++ t.2.2).length = u1.length := by
      simp [List.length_append]
    rw [this]
    exact List.take_left u1 _
  | cons c restS ih =>
    intro m rest h
    simp only [searchFrom] at h
    cases htry : tryAt pt (c :: restS) with
    | some t =>
      rw [htry] at h
      obtain ⟨rfl, rfl⟩ : mkInfo i (c :: restS) t = m ∧ t.2.2 = rest := by
        cases h; exact ⟨rfl, rfl⟩
      obtain ⟨t1, t2, t3⟩ := t
      rcases tryAt_sound htry with ⟨u0, u1, u2, hsplit, h0, h1, h2, e1, e2⟩
      refine ⟨c :: restS, u0, u1, u2, List.suffix_refl _, hsplit, h0, h1, h2, ?_⟩
      simp only [mkInfo, e1, e2]
      have : (u1 ++ (u2 ++ t3)).length - (u2 ++ t3).length = u1.length := by
        simp [List.length_append]
      rw [this]
      exact List.take_left u1 _
    | none =>
      rw [htry] at h
      rcases ih h with ⟨t, u0, u1, u2, hsuf, hsplit, h0, h1, h2, hg⟩
      exact ⟨t, u0, u1, u2, hsuf.trans (List.suffix_cons c restS), hsplit, h0, h1, h2, hg⟩

/-- The captured group of any search result is a word of the group regex. -/
theorem search_grp_matches {pt : Pat} {s : List Char} {m : MatchInfo}
    (h : search pt s = some m) : Matches pt.grp m.grp := by
  unfold search at h
  rcases Option.map_eq_some'.mp h with ⟨⟨m2, rest⟩, hsf, he⟩
  rcases searchFrom_sound hsf with ⟨t, u0, u1, u2, _, _, _, h1, _, hg⟩
  cases he
  rw [hg]
  exact h1

theorem matches_seq {a b : Reg} {u : List Char} (h : Matches (.seq a b) u) :
    ∃ u1 u2, u = u1 ++ u2 ∧ Matches a u1 ∧ Matches b u2 := by
  cases h with
  | seqM h1 h2 => exact ⟨_, _, rfl, h1, h2⟩

theorem matches_cls {p : Char → Bool} {u : List Char} (h : Matches (.cls p) u) :
    ∃ c, u = [c] ∧ p c = true := by
  cases h with
  | cls hc => exact ⟨_, rfl, hc⟩

theorem matches_opt {a : Reg} {u : List Char} (h : Matches (.opt a) u) :
    u = [] ∨ Matches a u := by
  cases h with
  | optS h1 => exact Or.inr h1
  | optN => exact Or.inl rfl

theorem matches_star {p : Char → Bool} {u : List Char}
    (h : Matches (.star p) u) : ∀ c ∈ u, p c = true := by
  cases h with
  | star h1 => exact h1

theorem matches_digits1 {u : List Char} (h : Matches digits1 u) :
    u ≠ [] ∧ ∀ c ∈ u, isDigitC c = true := by
  rcases matches_seq h with ⟨u1, u2, rfl, h1, h2⟩
  rcases matches_cls h1 with ⟨c, rfl, hc⟩
  have hall := matches_star h2
  refine ⟨by simp, ?_⟩
  intro d hd
  rcases List.mem_cons.mp hd with rfl | hd
  · exact hc
  · exact hall d hd

theorem takeWhile_append_digits {u v : List Char}
    (hall : ∀ c ∈ u, isDigitC c = true)
    (hv : ∀ c, v.head? = some c → isDigitC c = false) :
    (u ++ v).takeWhile isDigitC = u ∧ (u ++ v).dropWhile isDigitC = v := by
  induction u with
  | nil =>
    simp only [List.nil_append]
    cases v with
    | nil => simp
    | cons c rest =>
      have := hv c rfl
      simp [List.takeWhile, List.dropWhile, this]
  | cons c rest ih =>
    have hc : isDigitC c = true := hall c (List.mem_cons_self c rest)
    have ihr := ih (fun d hd => hall d (List.mem_cons_of_mem c hd))
    simp [List.takeWhile, List.dropWhile, hc, ihr.1, ihr.2]

/-- Every word the number regex accepts is converted by pyFloat without
error: the modelled float() never raises on a regex-extracted number. -/
theorem pyFloat_of_matches_num {u : List Char} (h : Matches numReg u) :
    ∃ q : ℚ, pyFloat u = some q := by
  rcases matches_seq h with ⟨u1, u2, rfl, hd, hopt⟩
  rcases matches_digits1 hd with ⟨hne, hall⟩
  have hshape : u2 = [] ∨ ∃ w, u2 = '.' :: w ∧ w ≠ [] ∧ ∀ c ∈ w, isDigitC c = true := by
    rcases matches_opt hopt with rfl | hf
    · exact Or.inl rfl
    · rcases matches_seq hf with ⟨w1, w2, rfl, hdot, hdig⟩
      rcases matches_cls hdot with ⟨c, rfl, hc⟩
      rcases matches_digits1 hdig with ⟨hne2, hall2⟩
      refine Or.inr ⟨w2, ?_, hne2, hall2⟩
      rw [eq_of_beq hc]
      rfl
  rcases hshape with rfl | ⟨w, rfl, hwne, hwall⟩
  · have htw := takeWhile_append_digits hall (v := [])
      (by intro c hc; simp at hc)
    unfold pyFloat
    rw [List.append_nil] at htw ⊢
    rw [htw.1, htw.2]
    simp [List.isEmpty_iff, hne]
  · have htw := takeWhile_append_digits hall (v := '.' :: w)
      (by intro c hc; cases hc; decide)
    unfold pyFloat
    rw [htw.1, htw.2]
    simp only [List.isEmpty_iff, hne, if_false]
    have hwa : w.all isDigitC = true := List.all_eq_true.mpr hwall
    simp [List.isEmpty_iff, hwne, hwa]

/-- Every word the number regex accepts contains a digit. -/
theorem matches_num_has_digit {u : List Char} (h : Matches numReg u) :
    ∃ c ∈ u, isDigitC c = true := by
  rcases matches_seq h with ⟨u1, u2, rfl, hd, _⟩
  rcases matches_digits1 hd with ⟨hne, hall⟩
  cases u1 with
  | nil => exact absurd rfl hne
  | cons c rest =>
    exact ⟨c, by simp, hall c (List.mem_cons_self c rest)⟩

/-- A pattern whose group is the number regex finds nothing in digit-free
text. -/
theorem search_none_of_no_digit {pt : Pat} {s : List Char}
    (hg : pt.grp = numReg) (hs : ∀ c ∈ s, isDigitC c = false) :
    search pt s = none := by
  cases h : search pt s with
  | none => rfl
  | some m =>
    exfalso
    have hm := search_grp_matches h
    rw [hg] at hm
    rcases matches_num_has_digit hm with ⟨c, hc, hdig⟩
    -- the group is a segment of a suffix of s
    unfold search at h
    rcases Option.map_eq_some'.mp h with ⟨⟨m2, rest⟩, hsf, he⟩
    rcases searchFrom_sound hsf with ⟨t, u0, u1, u2, hsuf, hsplit, _, _, _, hgrp⟩
    cases he
    have hmem : c ∈ s := by
      apply hsuf.subset
      rw [hsplit]
      rw [hgrp] at hc
      simp only [List.mem_append]
      exact Or.inr (Or.inl hc)
    rw [hs c hmem] at hdig
    exact Bool.false_ne_true hdig

namespace TSA

/-!
Embedding of src/tech-spec-analyzer-pro/ai/parameter_extractor.py: the
TechnicalParameterExtractor and CompatibilityAnalyzer classes.
-/

/-- ParameterType of parameter_extractor.py. -/
inductive ParameterType : Type where
  | voltage
  | current
  | power
  | temperature
  | frequency
  | dimension
deriving DecidableEq

/-- The value string of the ParameterType enum. -/
def ParameterType.val : ParameterType → String
  | .voltage => "voltage"
  | .current => "current"
  | .power => "power"
  | .temperature => "temperature"
  | .frequency => "frequency"
  | .dimension => "dimension"

/-- ExtractedParameter of parameter_extractor.py. -/
structure ExtractedParameter where
  name : String
  value : List Char
  numerical_value : Option ℚ
  unit : List Char
  confidence : ℚ
  source_text : List Char
  parameter_type : ParameterType
deriving DecidableEq

/-- One entry of the extraction-pattern table: patterns, unit patterns and a
confidence boost. -/
structure PatternGroup where
  patterns : List Pat
  unit_patterns : List Pat
  confidence_boost : ℚ

/-- The regex A or Amps or Amp or mA, alternatives in source order. -/
def ampAlt : Reg := ralt [istr "A", .seq (istr "Amp") (.opt (istr "s")), istr "mA"]

/-- The group of the voltage patterns: a number, optional whitespace, V, and
an optional DC or AC tag. -/
def voltGrp : Reg := rseq [numReg, ws, istr "V", .opt (rseq [ws, ralt [istr "DC", istr "AC"]])]

/-- digits-or-minus character class of the temperature patterns. -/
def digitDash (c : Char) : Bool := isDigitC c || c == '-'

/-- The group of the temperature patterns: a range like -20*C to 85*C with
each degree sign and C optional. -/
def tempGrp : Reg :=
  rseq [rplus digitDash, .opt (.cls fun c => c == '°'), .opt (.cls fun c => toLowerPy c == 'c'),
    ws, istr "to", ws, digits1, .opt (.cls fun c => c == '°'), .opt (.cls fun c => toLowerPy c == 'c')]

/-- The regex W or Watts or Watt. -/
def wattAlt : Reg := ralt [istr "W", .seq (istr "Watt") (.opt (istr "s"))]

/-- The regex Hz or KHz or MHz or GHz. -/
def hzAlt : Reg := ralt [istr "Hz", istr "KHz", istr "MHz", istr "GHz"]

/-- Voltage extraction rules of _initialize_patterns. -/
def voltageGroup : PatternGroup :=
  { patterns :=
      [ { pre := rseq [ralt [istr "Output", istr "Input", istr "Supply", istr "Operating", istr "Required"], ws1, istr "Voltage:", ws]
          grp := voltGrp
          post := .eps }
      , { pre := rseq [istr "Voltage", ws1, ralt [istr "Output", istr "Input", istr "Supply", istr "Rating"], istr ":", ws]
          grp := voltGrp
          post := .eps }
      , { pre := .eps
          grp := rseq [numReg, ws, istr "V", ws, ralt [istr "DC", istr "AC"]]
          post := rseq [ws1, ralt [istr "output", istr "input", istr "supply"]] }
      , { pre := rseq [istr "V", ralt [istr "out", istr "in", istr "supply", istr "dd", istr "cc"], istr ":", ws]
          grp := rseq [numReg, ws, istr "V"]
          post := .eps } ]
    unit_patterns :=
      [ { pre := .eps
          grp := rseq [istr "V", .opt (.seq (istr "olt") (.opt (istr "s"))), .opt (rseq [ws, ralt [istr "DC", istr "AC"]])]
          post := .eps }
      , { pre := .eps, grp := istr "V", post := .eps } ]
    confidence_boost := 1/10 }

/-- Current extraction rules of _initialize_patterns. -/
def currentGroup : PatternGroup :=
  { patterns :=
      [ { pre := rseq [ralt [istr "Max", istr "Maximum", istr "Output", istr "Input", istr "Draw", istr "Consumption"], ws1, istr "Current:", ws]
          grp := rseq [numReg, ws, ampAlt]
          post := .eps }
      , { pre := rseq [istr "Current", ws1, ralt [istr "Draw", istr "Rating", istr "Consumption", istr "Output", istr "Input"], istr ":", ws]
          grp := rseq [numReg, ws, ampAlt]
          post := .eps }
      , { pre := .eps
          grp := rseq [numReg, ws, ampAlt]
          post := rseq [ws1, ralt [istr "current", istr "draw", istr "consumption"]] }
      , { pre := rseq [istr "I", ralt [istr "out", istr "in", istr "max"], istr ":", ws]
          grp := rseq [numReg, ws, ampAlt]
          post := .eps } ]
    unit_patterns :=
      [ { pre := .eps
          grp := ralt [istr "A", .seq (istr "Amp") (.opt (istr "s")), istr "mA", .seq (istr "Ampere") (.opt (istr "s"))]
          post := .eps }
      , { pre := .eps, grp := istr "A", post := .eps } ]
    confidence_boost := 1/10 }

/-- Power extraction rules of _initialize_patterns. -/
def powerGroup : PatternGroup :=
  { patterns :=
      [ { pre := rseq [ralt [istr "Max", istr "Maximum", istr "Output", istr "Input", istr "Rated"], ws1, istr "Power:", ws]
          grp := rseq [numReg, ws, wattAlt]
          post := .eps }
      , { pre := rseq [istr "Power", ws1, ralt [istr "Rating", istr "Consumption", istr "Output", istr "Input"], istr ":", ws]
          grp := rseq [numReg, ws, wattAlt]
          post := .eps }
      , { pre := .eps
          grp := rseq [numReg, ws, wattAlt]
          post := rseq [ws1, ralt [istr "power", istr "consumption"]] } ]
    unit_patterns :=
      [ { pre := .eps, grp := wattAlt, post := .eps }
      , { pre := .eps, grp := istr "W", post := .eps } ]
    confidence_boost := 5/100 }

/-- Temperature extraction rules of _initialize_patterns. -/
def temperatureGroup : PatternGroup :=
  { patterns :=
      [ { pre := rseq [istr "Operating", ws1, istr "Temperature:", ws]
          grp := tempGrp
          post := .eps }
      , { pre := rseq [istr "Temperature", ws1, istr "Range:", ws]
          grp := tempGrp
          post := .eps }
      , { pre := rseq [istr "Temp", .opt (.cls fun c => c == '.'), ws, istr "Range:", ws]
          grp := tempGrp
          post := .eps } ]
    unit_patterns :=
      [ { pre := .eps, grp := ralt [istr "°C", istr "Celsius"], post := .eps }
      , { pre := .eps, grp := istr "°C", post := .eps } ]
    confidence_boost := 5/100 }

/-- Frequency extraction rules of _initialize_patterns. -/
def frequencyGroup : PatternGroup :=
  { patterns :=
      [ { pre := rseq [istr "Frequency:", ws]
          grp := rseq [numReg, ws, hzAlt]
          post := .eps }
      , { pre := .eps
          grp := rseq [numReg, ws, hzAlt]
          post := rseq [ws1, istr "frequency"] } ]
    unit_patterns :=
      [ { pre := .eps, grp := hzAlt, post := .eps }
      , { pre := .eps, grp := istr "Hz", post := .eps } ]
    confidence_boost := 5/100 }

/-- The extraction-pattern table in dict insertion order. -/
def extraction_patterns : List (ParameterType × List PatternGroup) :=
  [ (.voltage, [voltageGroup])
  , (.current, [currentGroup])
  , (.power, [powerGroup])
  , (.temperature, [temperatureGroup])
  , (.frequency, [frequencyGroup]) ]

/-- The range regex of _extract_numerical_value: a number, optional
whitespace, the literal to or a hyphen, optional whitespace, digits. The
pattern is compiled without IGNORECASE, so the to is case-sensitive. -/
def rangePat : Pat :=
  { pre := .eps
    grp := numReg
    post := rseq [ws, ralt [estr "to", estr "-"], ws, digits1] }

/-- The single-value regex of _extract_numerical_value. -/
def numOnlyPat : Pat := { pre := .eps, grp := numReg, post := .eps }

/-- TechnicalParameterExtractor._extract_numerical_value with the float()
conversions that could raise modelled in Except: error is a raised
ValueError, ok none is the function's None return. -/
def extract_numerical_valueE (text : List Char) : Except Unit (Option ℚ) :=
  if text.isEmpty then Except.ok none
  else
    match search rangePat text with
    | some m =>
      match pyFloat m.grp with
      | some v => Except.ok (some v)
      | none => Except.error ()
    | none =>
      match search numOnlyPat text with
      | some m =>
        match pyFloat m.grp with
        | some v => Except.ok (some v)
        | none => Except.error ()
      | none => Except.ok none

/-- TechnicalParameterExtractor._extract_numerical_value; the error case is
unreachable (proved below), so the plain function returns the Option. -/
def extract_numerical_value (text : List Char) : Option ℚ :=
  match extract_numerical_valueE text with
  | Except.ok o => o
  | Except.error _ => none

/-- TechnicalParameterExtractor._extract_unit: first unit pattern with a
match wins, otherwise the empty string. -/
def extract_unit (text : List Char) : List Pat → List Char
  | [] => []
  | p :: rest =>
    match search p text with
    | some m => m.grp
    | none => extract_unit text rest

/-- The structured-indicator regex of _calculate_confidence (IGNORECASE). -/
def structuredReg : Reg :=
  ralt [istr "datasheet", istr "specification", istr "spec", istr "technical"]

/-- The list-marker regex of _calculate_confidence (no flags): one or more
digits followed by a dot, or one of the three marker characters. -/
def bulletReg : Reg :=
  ralt [.seq digits1 (.cls fun c => c == '.'), .cls (fun c => c == '*'),
    .cls (fun c => c == '-'), .cls (fun c => c == '|')]

/-- The context slice full_text from max(0, start-100) to min(len, end+100)
taken by _calculate_confidence. -/
def contextWindow (mstart mend : Nat) (text : List Char) : List Char :=
  (text.drop (mstart - 100)).take (min text.length (mend + 100) - (mstart - 100))

/-- TechnicalParameterExtractor._calculate_confidence. -/
def calculate_confidence (mstart mend : Nat) (text : List Char) (boost : ℚ) : ℚ :=
  let context := contextWindow mstart mend text
  let b0 : ℚ := 6/10
  let b1 := if searchB structuredReg context then b0 + 15/100 else b0
  let b2 := if searchB bulletReg context then b1 + 1/10 else b1
  min 1 (b2 + boost)

/-- The per-match body of _extract_parameter_type: strip the group, extract
the numeric value (propagating a float() error), the unit and the
confidence, and append the parameter, whose name counts the parameters of
the group built so far. -/
def extractStep (text : List Char) (ptype : ParameterType) (pg : PatternGroup)
    (ps2 : List ExtractedParameter) (m : MatchInfo) :
    Except Unit (List ExtractedParameter) :=
  match extract_numerical_valueE (pyStrip m.grp) with
  | Except.error e => Except.error e
  | Except.ok numerical_value =>
    Except.ok (ps2 ++
      [{ name := ptype.val ++ "_" ++ toString ps2.length
         value := pyStrip m.grp
         numerical_value := numerical_value
         unit := extract_unit (pyStrip m.grp) pg.unit_patterns
         confidence := calculate_confidence m.mstart m.mend text pg.confidence_boost
         source_text := m.whole
         parameter_type := ptype }])

/-- TechnicalParameterExtractor._extract_parameter_type, with the float()
conversion inside the numerical-value extraction in Except. -/
def extract_parameter_typeE (text : List Char) (ptype : ParameterType)
    (pg : PatternGroup) : Except Unit (List ExtractedParameter) :=
  pg.patterns.foldlM
    (fun ps pat => (finditer pat text).foldlM (extractStep text ptype pg) ps)
    []

/-- The key of _deduplicate_parameters: parameter type, numerical value,
lowercased unit. -/
def keyOf (p : ExtractedParameter) : ParameterType × Option ℚ × List Char :=
  (p.parameter_type, p.numerical_value, pyLower p.unit)

/-- Association-list lookup by key (the Python dict). -/
def lookupKey (k : ParameterType × Option ℚ × List Char) :
    List ((ParameterType × Option ℚ × List Char) × ExtractedParameter) →
    Option ExtractedParameter
  | [] => none
  | (k2, q) :: rest => if k2 = k then some q else lookupKey k rest

/-- Replace the entry of an existing key in place, as assigning to a Python
dict key keeps its insertion position. -/
def replaceKey (k : ParameterType × Option ℚ × List Char) (p : ExtractedParameter) :
    List ((ParameterType × Option ℚ × List Char) × ExtractedParameter) →
    List ((ParameterType × Option ℚ × List Char) × ExtractedParameter)
  | [] => []
  | (k2, q) :: rest =>
    if k2 = k then (k2, p) :: rest else (k2, q) :: replaceKey k p rest

/-- The seen_values dict loop of _deduplicate_parameters. -/
def dedupAux :
    List ExtractedParameter →
    List ((ParameterType × Option ℚ × List Char) × ExtractedParameter) →
    List ((ParameterType × Option ℚ × List Char) × ExtractedParameter)
  | [], acc => acc
  | p :: rest, acc =>
    let k := keyOf p
    match lookupKey k acc with
    | none => dedupAux rest (acc ++ [(k, p)])
    | some q =>
      if p.confidence > q.confidence then dedupAux rest (replaceKey k p acc)
      else dedupAux rest acc

/-- TechnicalParameterExtractor._deduplicate_parameters. -/
def deduplicate_parameters (ps : List ExtractedParameter) : List ExtractedParameter :=
  (dedupAux ps []).map Prod.snd

/-- The pre-deduplication gather loop of extract_all_parameters. -/
def gatherAllE (text : List Char) : Except Unit (List ExtractedParameter) :=
  extraction_patterns.foldlM
    (fun acc pr =>
      pr.2.foldlM
        (fun acc2 pg => do
          let l ← extract_parameter_typeE text pr.1 pg
          pure (acc2 ++ l))
        acc)
    []

/-- TechnicalParameterExtractor.extract_all_parameters with the possible
float() error threaded through. -/
def extract_all_parametersE (text : List Char) : Except Unit (List ExtractedParameter) := do
  let l ← gatherAllE text
  pure (deduplicate_parameters l)

/-- The gathered candidate list; the error case is unreachable (see below). -/
def gatherAll (text : List Char) : List ExtractedParameter :=
  match gatherAllE text with
  | Except.ok l => l
  | Except.error _ => []

/-- TechnicalParameterExtractor.extract_all_parameters. -/
def extract_all_parameters (text : List Char) : List ExtractedParameter :=
  match extract_all_parametersE text with
  | Except.ok l => l
  | Except.error _ => []

/-- The psu_indicators list of _is_psu_parameter. -/
def psu_indicators : List String :=
  ["power supply", "psu", "adapter", "charger", "output", "supply unit"]

/-- The led_indicators list of _is_led_parameter. -/
def led_indicators : List String :=
  ["led", "strip", "light", "lamp", "input", "required", "consumption", "draw"]

/-- Exact substring containment, Python's in operator on str. -/
def containsSub (s w : List Char) : Bool :=
  decide (w <:+: s)

/-- TechnicalParameterExtractor._is_psu_parameter. -/
def is_psu_parameter (source_text : List Char) : Bool :=
  psu_indicators.any fun w => containsSub (pyLower source_text) w.data

/-- TechnicalParameterExtractor._is_led_parameter. -/
def is_led_parameter (source_text : List Char) : Bool :=
  led_indicators.any fun w => containsSub (pyLower source_text) w.data

/-- Role of an extracted parameter as the spec names it. -/
inductive Role : Type where
  | source
  | sink
  | unknown
deriving DecidableEq

/-- The if and elif precedence of find_psu_led_parameters: the PSU check runs
first, the LED check only when it fails, anything else is unclassified. -/
def classifyRole (source_text : List Char) : Role :=
  if is_psu_parameter source_text then .source
  else if is_led_parameter source_text then .sink
  else .unknown

/-- The voltage-check dict of CompatibilityAnalyzer._check_voltage_compatibility
(the formatted analysis string carries no further data and is omitted). -/
structure VoltageCheck where
  compatible : Bool
  psu_voltage : ℚ
  led_voltage : ℚ
  difference : ℚ
  tolerance : ℚ
deriving DecidableEq

/-- CompatibilityAnalyzer._check_voltage_compatibility. -/
def check_voltage_compatibility (psu_voltage led_voltage : ℚ) : VoltageCheck :=
  let tolerance : ℚ := 5/10
  let difference := |psu_voltage - led_voltage|
  { compatible := decide (difference ≤ tolerance)
    psu_voltage := psu_voltage
    led_voltage := led_voltage
    difference := difference
    tolerance := tolerance }

/-- The current-check dict of CompatibilityAnalyzer._check_current_compatibility
(the formatted analysis string carries no further data and is omitted). -/
structure CurrentCheck where
  compatible : Bool
  psu_current : ℚ
  led_current : ℚ
  safety_margin : ℚ
  margin_percentage : ℚ
deriving DecidableEq

/-- CompatibilityAnalyzer._check_current_compatibility: the safety margin
falls back to 0 unless the LED current is strictly positive, so no division
by zero occurs. -/
def check_current_compatibility (psu_current led_current : ℚ) : CurrentCheck :=
  let compatible := decide (psu_current ≥ led_current)
  let safety_margin :=
    if led_current > 0 then (psu_current - led_current) / led_current else 0
  { compatible := compatible
    psu_current := psu_current
    led_current := led_current
    safety_margin := safety_margin
    margin_percentage := safety_margin * 100 }

/-- The dict returned by analyze_psu_led_compatibility when a parameter is
missing. -/
structure InsufficientInfo where
  compatible : Bool
  decision : String
  confidence : String
  missing_parameters : List String
  analysis_details : String
deriving DecidableEq

/-- The dict returned by analyze_psu_led_compatibility on the full path (the
formatted analysis_details string carries no further data and is omitted). -/
structure FullInfo where
  compatible : Bool
  decision : String
  confidence : String
  confidence_score : ℚ
  voltage_analysis : VoltageCheck
  current_analysis : CurrentCheck
  parameter_confidence : ℚ × ℚ × ℚ × ℚ
deriving DecidableEq

/-- The result of analyze_psu_led_compatibility: one of its two return
shapes. -/
inductive PsuLedAnalysis : Type where
  | insufficient : InsufficientInfo → PsuLedAnalysis
  | full : FullInfo → PsuLedAnalysis
deriving DecidableEq

/-- Referenced parameters of an analysis result: neither return dict of
analyze_psu_led_compatibility carries a referenced-parameters entry, so as a
sequence it is empty for every result. -/
def PsuLedAnalysis.referencedParameters : PsuLedAnalysis → List (String × String) :=
  fun _ => []

/-- The missing list built by analyze_psu_led_compatibility, in its append
order. -/
def missingParams (pv pc lv lcur : Option ExtractedParameter) : List String :=
  (if pv.isNone then ["PSU voltage"] else []) ++
  (if pc.isNone then ["PSU current"] else []) ++
  (if lv.isNone then ["LED voltage"] else []) ++
  (if lcur.isNone then ["LED current"] else [])

/-- CompatibilityAnalyzer.analyze_psu_led_compatibility. A dataclass instance
is always truthy and None falsy, so the not-all guard is exactly the
any-is-None test; on the full path the arithmetic on numerical_value would
raise a TypeError when a numerical value is None, modelled as Except.error. -/
def analyze_psu_led_compatibilityE (pv pc lv lcur : Option ExtractedParameter) :
    Except Unit PsuLedAnalysis :=
  if pv.isNone || pc.isNone || lv.isNone || lcur.isNone then
    Except.ok (.insufficient
      { compatible := false
        decision := "Insufficient Data"
        confidence := "Low"
        missing_parameters := missingParams pv pc lv lcur
        analysis_details := "Cannot perform analysis without all required parameters" })
  else
    match pv, pc, lv, lcur with
    | some a, some b, some c, some d =>
      match a.numerical_value, c.numerical_value, b.numerical_value, d.numerical_value with
      | some av, some cv, some bv, some dv =>
        let voltage_compatible := check_voltage_compatibility av cv
        let current_compatible := check_current_compatibility bv dv
        let overall := voltage_compatible.compatible && current_compatible.compatible
        let confidence_score :=
          min (min a.confidence b.confidence) (min c.confidence d.confidence)
        Except.ok (.full
          { compatible := overall
            decision := if overall then "Compatible" else "Incompatible"
            confidence :=
              if confidence_score > 8/10 then "High"
              else if confidence_score > 6/10 then "Medium" else "Low"
            confidence_score := confidence_score
            voltage_analysis := voltage_compatible
            current_analysis := current_compatible
            parameter_confidence := (a.confidence, b.confidence, c.confidence, d.confidence) })
      | _, _, _, _ => Except.error ()
    | _, _, _, _ => Except.error ()

end TSA

namespace WebApp

/-!
Embedding of src/app.py: the simplified extraction helpers and the pure
decision logic of the analyze endpoint (request unpacking, logging and
jsonify are the HTTP collaborator).
-/

/-- The group of the web-layer voltage patterns: digits, whitespace, V,
whitespace, DC. -/
def vdcGrp : Reg := rseq [digits1, ws, istr "V", ws, istr "DC"]

/-- The group of the web-layer current patterns: a number, whitespace, Amp
with optional s (the plain A alternative is absent here). -/
def ampsGrp : Reg := rseq [numReg, ws, istr "Amp", .opt (istr "s")]

/-- psu_output_voltage_patterns of src/app.py analyze. -/
def psu_output_voltage_patterns : List Pat :=
  [ { pre := rseq [istr "Output Voltage:", ws], grp := vdcGrp, post := .eps }
  , { pre := rseq [istr "Output:", ws], grp := vdcGrp, post := .eps }
  , { pre := rseq [istr "DC Output:", ws], grp := rseq [digits1, ws, istr "V"], post := .eps } ]

/-- psu_max_current_patterns of src/app.py analyze. -/
def psu_max_current_patterns : List Pat :=
  [ { pre := rseq [istr "Max Output Current:", ws], grp := ampsGrp, post := .eps }
  , { pre := rseq [istr "Maximum Current:", ws], grp := ampsGrp, post := .eps }
  , { pre := rseq [istr "Output Current:", ws], grp := ampsGrp, post := .eps } ]

/-- led_input_voltage_patterns of src/app.py analyze. -/
def led_input_voltage_patterns : List Pat :=
  [ { pre := rseq [istr "Required Input Voltage:", ws], grp := vdcGrp, post := .eps }
  , { pre := rseq [istr "Input Voltage:", ws], grp := vdcGrp, post := .eps }
  , { pre := rseq [istr "Operating Voltage:", ws], grp := vdcGrp, post := .eps } ]

/-- led_current_draw_patterns of src/app.py analyze. -/
def led_current_draw_patterns : List Pat :=
  [ { pre := rseq [istr "Current Draw:", ws], grp := ampsGrp, post := .eps }
  , { pre := rseq [istr "Power Consumption:", ws], grp := ampsGrp, post := .eps }
  , { pre := rseq [istr "Current Requirement:", ws], grp := ampsGrp, post := .eps } ]

/-- extract_parameter of src/app.py: the first pattern with a match anywhere
wins and its stripped group is returned. -/
def extract_parameter (text : List Char) : List Pat → Option (List Char)
  | [] => none
  | p :: rest =>
    match search p text with
    | some m => some (pyStrip m.grp)
    | none => extract_parameter text rest

/-- extract_numerical_value of src/app.py, the float() conversion that could
raise modelled in Except (no range handling in this copy). -/
def extract_numerical_valueE (text : List Char) : Except Unit (Option ℚ) :=
  if text.isEmpty then Except.ok none
  else
    match search TSA.numOnlyPat text with
    | some m =>
      match pyFloat m.grp with
      | some v => Except.ok (some v)
      | none => Except.error ()
    | none => Except.ok none

/-- The JSON response shape of the analyze endpoint, all strings as character
lists. -/
structure Response where
  decision : List Char
  justification : List Char
  referenced_sections : List (List Char × List Char)
  extracted : List (List Char × List Char)
  confidence : List Char
deriving DecidableEq

/-- Python truthiness of the list of the four extracted strings: all() is
false on a None and on an empty string. -/
def pyAllStr (l : List (Option (List Char))) : Bool :=
  l.all fun o =>
    match o with
    | none => false
    | some s => !s.isEmpty

/-- Python truthiness of the list of the four parsed values: all() is false
on a None and on the float 0.0. -/
def pyAllQ (l : List (Option ℚ)) : Bool :=
  l.all fun o =>
    match o with
    | none => false
    | some v => !(decide (v = 0))

/-- The Extracted_Technical_Data dict. -/
def extractedData (pv pc lv ld : Option (List Char)) : List (List Char × List Char) :=
  [ (lc "PSU_Output_Voltage", pv.getD (lc "Not Found"))
  , (lc "PSU_Max_Output_Current", pc.getD (lc "Not Found"))
  , (lc "LED_Required_Voltage", lv.getD (lc "Not Found"))
  , (lc "LED_Current_Draw", ld.getD (lc "Not Found")) ]

/-- The Referenced_Sections list built when all values parsed. -/
def referencedSections (s1 s2 s3 s4 : List Char) : List (List Char × List Char) :=
  [ (lc "PSU - Output Voltage", lc "Output Voltage: " ++ s1)
  , (lc "PSU - Max Output Current", lc "Max Output Current: " ++ s2)
  , (lc "LED - Required Input Voltage", lc "Required Input Voltage: " ++ s3)
  , (lc "LED - Current Draw", lc "Current Draw: " ++ s4) ]

/-- The analyze endpoint of src/app.py as a pure function of the document
text: parameter extraction, numeric parsing guarded by Python truthiness,
equality and sufficiency comparison, and the response fields each branch
sets. The inner try block maps a raised float() error to the
error-during-analysis justification. -/
def analyze (document_text : List Char) : Response :=
  let pv := extract_parameter document_text psu_output_voltage_patterns
  let pc := extract_parameter document_text psu_max_current_patterns
  let lv := extract_parameter document_text led_input_voltage_patterns
  let ld := extract_parameter document_text led_current_draw_patterns
  let extracted := extractedData pv pc lv ld
  if pyAllStr [pv, pc, lv, ld] then
    let s1 := pv.getD []
    let s2 := pc.getD []
    let s3 := lv.getD []
    let s4 := ld.getD []
    match extract_numerical_valueE s1, extract_numerical_valueE s2,
        extract_numerical_valueE s3, extract_numerical_valueE s4 with
    | Except.ok v1, Except.ok v2, Except.ok v3, Except.ok v4 =>
      if pyAllQ [v1, v2, v3, v4] then
        let q1 := v1.getD 0
        let q2 := v2.getD 0
        let q3 := v3.getD 0
        let q4 := v4.getD 0
        let voltage_match := decide (q1 = q3)
        let current_sufficient := decide (q2 ≥ q4)
        if voltage_match && current_sufficient then
          { decision := lc "Compatible"
            justification :=
              lc "The Power Supply provides " ++ s1 ++
              lc ", which matches the LED's required " ++ s3 ++
              lc ". The PSU's max current of " ++ s2 ++
              lc " is sufficient to handle the LED's draw of " ++ s4 ++ lc "."
            referenced_sections := referencedSections s1 s2 s3 s4
            extracted := extracted
            confidence := lc "High" }
        else
          { decision := lc "Incompatible"
            justification :=
              List.intercalate (lc " ")
                ((if voltage_match then []
                  else [lc "Voltage mismatch: PSU provides " ++ s1 ++
                    lc " but LED requires " ++ s3 ++ lc "."]) ++
                 (if current_sufficient then []
                  else [lc "Insufficient current: PSU provides a max of " ++ s2 ++
                    lc " but LED requires " ++ s4 ++ lc "."]))
            referenced_sections := referencedSections s1 s2 s3 s4
            extracted := extracted
            confidence := lc "High" }
      else
        { decision := lc "Not Explicitly Covered"
          justification :=
            lc "Found parameters but could not parse numerical values to perform comparison."
          referenced_sections := []
          extracted := extracted
          confidence := lc "Medium" }
    | _, _, _, _ =>
      { decision := lc "Not Explicitly Covered"
        justification :=
          lc "Found parameters but encountered an error during numerical analysis."
        referenced_sections := []
        extracted := extracted
        confidence := lc "Low" }
  else
    { decision := lc "Not Explicitly Covered"
      justification :=
        lc "Could not determine compatibility. One or more required parameters were not found in the document."
      referenced_sections := []
      extracted := extracted
      confidence := lc "Low" }

/-- The scenario-2 document of the spec: matching voltages, insufficient
current. -/
def scenario2doc : List Char :=
  lc "Output Voltage: 12V DC\nMax Output Current: 5 Amps\nRequired Input Voltage: 12V DC\nCurrent Draw: 6 Amps"

/-- A document whose four parameters are all found and all parse, with the
PSU output voltage equal to 0. -/
def zeroVoltageDoc : List Char :=
  lc "Output Voltage: 0 V DC\nMax Output Current: 5 Amps\nRequired Input Voltage: 12V DC\nCurrent Draw: 4 Amps"

end WebApp

/-!
Spec-side vocabulary: the confidence claim describes the two context tests as
word containment and list-marker containment; these definitions state that
reading, to be proved equal to the regex searches the code performs.
-/

/-- The four structure-indicator words of the confidence heuristic as the
spec lists them. -/
def structWords : List String := ["datasheet", "specification", "spec", "technical"]

/-- Case-insensitive containment of a word in a text. -/
def containsCI (w : String) (s : List Char) : Bool :=
  decide (pyLower w.data <:+: pyLower s)

/-- An adjacent digit-dot pair somewhere in the text. -/
def hasDigitDot : List Char → Bool
  | c :: d :: rest => (isDigitC c && d == '.') || hasDigitDot (d :: rest)
  | _ => false

/-- A digit run continued to a dot: what may follow the first digit of a
digit-dot token. -/
def ddFollow : List Char → Bool
  | [] => false
  | x :: xs => x == '.' || (isDigitC x && ddFollow xs)

/-- A list or bullet marker as the spec reads the regex: a digit-dot token or
one of the three marker characters. -/
def hasBulletMarker (s : List Char) : Bool :=
  hasDigitDot s || s.any (fun c => c == '*') || s.any (fun c => c == '-') ||
    s.any (fun c => c == '|')

/-!
Lemmas relating the backtracking matcher to the word-level reading of the
searches the confidence heuristic performs.
-/

theorem oalt_isSome {α : Type} (a b : Option α) :
    (oalt a b).isSome = (a.isSome || b.isSome) := by
  cases a <;> simp [oalt]

theorem matchR_istrL {α : Type} :
    ∀ (w s : List Char) (k : List Char → Option α),
      matchR (istrL w) s k =
        if pyLower w <+: pyLower s then k (s.drop w.length) else none := by
  intro w
  induction w with
  | nil =>
    intro s k
    simp [istrL, matchR, pyLower]
  | cons c cs ih =>
    intro s k
    cases s with
    | nil =>
      simp [istrL, matchR, pyLower]
    | cons d rest =>
      simp only [istrL, matchR]
      by_cases hp : toLowerPy d = toLowerPy c
      · have hb : (toLowerPy d == toLowerPy c) = true := beq_iff_eq.mpr hp
        rw [if_pos hb, ih rest k]
        have hpre : pyLower (c :: cs) <+: pyLower (d :: rest) ↔
            pyLower cs <+: pyLower rest := by
          simp only [pyLower, List.map_cons]
          rw [List.cons_prefix_cons]
          simp [hp.symm]
        by_cases h2 : pyLower cs <+: pyLower rest
        · rw [if_pos h2, if_pos (hpre.mpr h2)]
          simp [List.length_cons, List.drop_succ_cons]
        · rw [if_neg h2, if_neg (fun h => h2 (hpre.mp h))]
      · have hb : (toLowerPy d == toLowerPy c) = false := by
          simp [beq_iff_eq, hp]
        rw [hb]
        simp only [Bool.false_eq_true, if_false]
        have : ¬ (pyLower (c :: cs) <+: pyLower (d :: rest)) := by
          simp only [pyLower, List.map_cons]
          rw [List.cons_prefix_cons]
          intro h
          exact hp h.1.symm
        rw [if_neg this]

theorem matchR_istrL_isSome (w s : List Char) :
    (matchR (istrL w) s fun _ => some ()).isSome =
      decide (pyLower w <+: pyLower s) := by
  rw [matchR_istrL]
  by_cases h : pyLower w <+: pyLower s <;> simp [h]

theorem searchB_istrL :
    ∀ (s w : List Char), searchB (istrL w) s = decide (pyLower w <:+: pyLower s) := by
  intro s
  induction s with
  | nil =>
    intro w
    simp only [searchB, matchR_istrL_isSome]
    by_cases h : pyLower w = []
    · simp [h, pyLower]
    · simp only [pyLower, List.map_nil] at *
      simp [List.prefix_nil, List.infix_nil, h]
  | cons c rest ih =>
    intro w
    simp only [searchB, matchR_istrL_isSome, ih]
    have hiff : (pyLower w <:+: pyLower (c :: rest)) ↔
        (pyLower w <+: pyLower (c :: rest) ∨ pyLower w <:+: pyLower rest) := by
      simp only [pyLower, List.map_cons]
      exact List.infix_cons_iff
    by_cases h1 : pyLower w <+: pyLower (c :: rest) <;>
      by_cases h2 : pyLower w <:+: pyLower rest <;>
        simp [h1, h2, hiff]

theorem searchB_alt (a b : Reg) :
    ∀ s, searchB (.alt a b) s = (searchB a s || searchB b s) := by
  intro s
  induction s with
  | nil =>
    simp [searchB, matchR, oalt_isSome]
  | cons c rest ih =>
    simp only [searchB, matchR, oalt_isSome, ih]
    cases (matchR a (c :: rest) fun _ => some ()).isSome <;>
      cases (matchR b (c :: rest) fun _ => some ()).isSome <;>
        cases searchB a rest <;> cases searchB b rest <;> rfl

theorem searchB_ralt :
    ∀ (l : List Reg) (s : List Char),
      searchB (ralt l) s = l.any (fun r => searchB r s) := by
  intro l
  induction l with
  | nil =>
    intro s
    have hfalse : ∀ t, searchB (Reg.cls fun _ => false) t = false := by
      intro t
      induction t with
      | nil => simp [searchB, matchR]
      | cons c rest ih2 => simp [searchB, matchR, ih2]
    simp [ralt, hfalse]
  | cons r rest ih =>
    intro s
    cases rest with
    | nil => simp [ralt]
    | cons r2 rest2 =>
      simp only [ralt, searchB_alt, ih, List.any_cons]

theorem matchR_cls_isSome (p : Char → Bool) (s : List Char) :
    (matchR (.cls p) s fun _ => some ()).isSome =
      match s with
      | [] => false
      | c :: _ => p c := by
  cases s with
  | nil => simp [matchR]
  | cons c rest =>
    simp only [matchR]
    by_cases h : p c <;> simp [h]

theorem searchB_cls (p : Char → Bool) :
    ∀ s, searchB (.cls p) s = s.any p := by
  intro s
  induction s with
  | nil => simp [searchB, matchR]
  | cons c rest ih =>
    simp only [searchB, matchR_cls_isSome, ih, List.any_cons]
    by_cases h : p c <;> simp [h]

theorem greedy_dd :
    ∀ cs, (greedy isDigitC
        (fun t => matchR (.cls fun c => c == '.') t fun _ => some ()) cs).isSome =
      ddFollow cs := by
  intro cs
  induction cs with
  | nil => simp [greedy, matchR, ddFollow]
  | cons x xs ih =>
    simp only [greedy, ddFollow]
    by_cases hd : isDigitC x
    · rw [if_pos hd]
      rw [oalt_isSome, ih, matchR_cls_isSome]
      have hnd : (x == '.') = false := by
        cases hx : x == '.'
        · rfl
        · exfalso
          rw [eq_of_beq hx] at hd
          exact absurd hd (by decide)
      simp [hnd, hd, Bool.or_comm]
    · rw [if_neg hd]
      rw [matchR_cls_isSome]
      have hdf : isDigitC x = false := by
        cases h : isDigitC x
        · rfl
        · exact absurd h hd
      simp [hdf]

theorem dd_at (s : List Char) :
    (matchR (.seq digits1 (.cls fun c => c == '.')) s fun _ => some ()).isSome =
      match s with
      | [] => false
      | c :: cs => isDigitC c && ddFollow cs := by
  cases s with
  | nil => rfl
  | cons c cs =>
    show (if isDigitC c then
        greedy isDigitC (fun t => matchR (.cls fun c => c == '.') t fun _ => some ()) cs
      else none).isSome = (isDigitC c && ddFollow cs)
    by_cases h : isDigitC c
    · rw [if_pos h, greedy_dd]
      simp [h]
    · rw [if_neg h]
      have hf : isDigitC c = false := by
        cases h2 : isDigitC c
        · rfl
        · exact absurd h2 h
      simp [hf]

theorem ddFollow_hasDigitDot :
    ∀ (xs : List Char) (x : Char), isDigitC x = true → ddFollow xs = true →
      hasDigitDot (x :: xs) = true := by
  intro xs
  induction xs with
  | nil =>
    intro x _ h2
    simp [ddFollow] at h2
  | cons y ys ih =>
    intro x hx h2
    simp only [ddFollow, Bool.or_eq_true, Bool.and_eq_true] at h2
    rcases h2 with h2 | ⟨hy, h2⟩
    · simp [hasDigitDot, hx, h2]
    · have := ih y hy h2
      simp [hasDigitDot, this]

theorem searchB_dd :
    ∀ s, searchB (.seq digits1 (.cls fun c => c == '.')) s = hasDigitDot s := by
  intro s
  induction s with
  | nil => rfl
  | cons c cs ih =>
    simp only [searchB, dd_at, ih]
    cases cs with
    | nil =>
      simp [ddFollow, hasDigitDot]
    | cons d rest =>
      by_cases h : (isDigitC c && ddFollow (d :: rest)) = true
      · rw [if_pos h]
        simp only [Bool.and_eq_true, ddFollow, Bool.or_eq_true] at h
        rcases h with ⟨hc, hd | h2⟩
        · simp [hasDigitDot, hc, hd]
        · have h3 := ddFollow_hasDigitDot rest d h2.1 h2.2
          simp [hasDigitDot, h3]
      · rw [if_neg h]
        have hfirst : (isDigitC c && (d == '.')) = false := by
          cases hc : isDigitC c
          · rfl
          · cases hdot : d == '.'
            · rfl
            · exfalso
              apply h
              simp [hc, ddFollow, hdot]
        simp [hasDigitDot, hfirst]

theorem structured_words (s : List Char) :
    searchB TSA.structuredReg s = structWords.any (fun w => containsCI w s) := by
  simp only [TSA.structuredReg, searchB_ralt, istr]
  simp [structWords, containsCI, searchB_istrL, List.any_cons]

theorem bullet_markers (s : List Char) :
    searchB TSA.bulletReg s = hasBulletMarker s := by
  simp only [TSA.bulletReg, searchB_ralt, List.any_cons, List.any_nil]
  rw [searchB_dd, searchB_cls, searchB_cls, searchB_cls]
  simp [hasBulletMarker, Bool.or_assoc]

/-- C1: for every pair of present source and sink voltages the compatibility
evaluation computes voltageCompatible as the absolute difference being at
most the fixed tolerance of 0.5 volts; a difference of exactly 0.5 (12 V
against 11.5 V) is compatible and a difference of 0.51 (12 V against 11.49 V)
is not, so the comparison is a non-strict one. -/
theorem claim1_voltage_tolerance :
    (∀ pv lv : ℚ,
      ((TSA.check_voltage_compatibility pv lv).compatible = true ↔ |pv - lv| ≤ 5/10)) ∧
    (TSA.check_voltage_compatibility 12 (23/2)).compatible = true ∧
    (TSA.check_voltage_compatibility 12 (1149/100)).compatible = false := by
  have hiff : ∀ pv lv : ℚ,
      ((TSA.check_voltage_compatibility pv lv).compatible = true ↔ |pv - lv| ≤ 5/10) := by
    intro pv lv
    simp [TSA.check_voltage_compatibility]
  refine ⟨hiff, ?_, ?_⟩
  · apply (hiff 12 (23/2)).mpr
    rw [show (12 : ℚ) - 23/2 = 1/2 by norm_num, abs_le]
    constructor <;> norm_num
  · apply Bool.eq_false_iff.mpr
    intro h
    have h2 := (hiff 12 (1149/100)).mp h
    rw [show (12 : ℚ) - 1149/100 = 51/100 by norm_num, abs_le] at h2
    have h3 := h2.2
    norm_num at h3

/-- C9 counterexample: at source current -10 and sink current -5 the sink
current is negative yet currentCompatible is false, refuting the claim's
clause that a zero or negative sink current always yields compatibility. -/
theorem claim9_counterexample :
    (TSA.check_current_compatibility (-10) (-5)).compatible = false := by
  simp only [TSA.check_current_compatibility, decide_eq_false_iff_not]
  norm_num

/-- C9 amended: for every pair of present source and sink currents the check
raises no exception and computes currentCompatible as source at least sink;
the safety margin is the relative excess when the sink current is strictly
positive and 0 otherwise, so it is 0 (not a division by zero) at sink current
0; and a zero or negative sink current yields currentCompatible = true
whenever the source current is nonnegative (as every extracted current is). -/
theorem claim9_current_check (pc lcur : ℚ) :
    ((TSA.check_current_compatibility pc lcur).compatible = true ↔ pc ≥ lcur) ∧
    (TSA.check_current_compatibility pc lcur).safety_margin =
      (if lcur > 0 then (pc - lcur) / lcur else 0) ∧
    (lcur = 0 → (TSA.check_current_compatibility pc lcur).safety_margin = 0) ∧
    (0 ≤ pc → lcur ≤ 0 → (TSA.check_current_compatibility pc lcur).compatible = true) := by
  refine ⟨?_, rfl, ?_, ?_⟩
  · simp [TSA.check_current_compatibility]
  · intro h
    simp [TSA.check_current_compatibility, h]
  · intro h1 h2
    simp only [TSA.check_current_compatibility, decide_eq_true_eq]
    linarith

/-- Witness for C9: at source 5 and sink 0 the hypotheses hold, the check is
compatible and the margin is 0. -/
theorem claim9_current_check_witness :
    (TSA.check_current_compatibility 5 0).compatible = true ∧
    (TSA.check_current_compatibility 5 0).safety_margin = 0 :=
  ⟨(claim9_current_check 5 0).2.2.2 (by norm_num) (le_refl 0),
    (claim9_current_check 5 0).2.2.1 rfl⟩

/-- C2 counterexample: on the text -20°C to 85°C the numeric parser returns
20, not the -20 the claim asserts: the number regexes capture no sign, and
the range regex does not fire because the degree unit stands between the
numbers and the range token. -/
theorem claim2_counterexample :
    TSA.extract_numerical_value (lc "-20°C to 85°C") = some 20 ∧ (20 : ℚ) ≠ -20 := by
  constructor
  · decide
  · norm_num

/-- C2 amended: parseNumeric returns the first (unsigned) number of a range
token when the range regex matches, the first decimal number otherwise, and
absent when the text contains no digit; in particular parseNumeric of 12V DC
is 12.0, of -20°C to 85°C it is 20.0 (the sign is not captured and the range
branch does not fire across the degree unit), and of abc it is absent. -/
theorem claim2_parse_numeric :
    TSA.extract_numerical_value (lc "12V DC") = some 12 ∧
    TSA.extract_numerical_value (lc "-20°C to 85°C") = some 20 ∧
    TSA.extract_numerical_value (lc "abc") = none ∧
    (∀ s : List Char, (∀ c ∈ s, isDigitC c = false) →
      TSA.extract_numerical_value s = none) := by
  refine ⟨by decide, by decide, by decide, ?_⟩
  intro s hs
  unfold TSA.extract_numerical_value TSA.extract_numerical_valueE
  by_cases he : s.isEmpty
  · simp [he]
  · simp only [he, Bool.false_eq_true, if_false]
    rw [search_none_of_no_digit rfl hs, search_none_of_no_digit rfl hs]

/-- Witness for C2: the digit-free string xyz parses to absent. -/
theorem claim2_parse_numeric_witness :
    TSA.extract_numerical_value (lc "xyz") = none :=
  claim2_parse_numeric.2.2.2 (lc "xyz") (by decide)

/-- C7: for every match position, document text and rule boost, the computed
confidence equals the base 0.6, plus 0.15 when the 100-character window
around the match contains one of the words datasheet, specification, spec or
technical (case-insensitively), plus 0.10 when that window contains a list or
bullet marker (a digit-dot token, an asterisk, a hyphen or a pipe), plus the
rule's confidence boost, clamped to at most 1.0. -/
theorem claim7_confidence_formula (mstart mend : Nat) (text : List Char) (boost : ℚ) :
    TSA.calculate_confidence mstart mend text boost =
      min 1 ((6/10 : ℚ)
        + (if structWords.any
              (fun w => containsCI w (TSA.contextWindow mstart mend text))
            then 15/100 else 0)
        + (if hasBulletMarker (TSA.contextWindow mstart mend text)
            then 1/10 else 0)
        + boost) := by
  simp only [TSA.calculate_confidence]
  rw [structured_words, bullet_markers]
  by_cases h1 : structWords.any
      (fun w => containsCI w (TSA.contextWindow mstart mend text)) = true <;>
    by_cases h2 : hasBulletMarker (TSA.contextWindow mstart mend text) = true <;>
      simp only [h1, h2, Bool.false_eq_true, if_true, if_false] <;>
        (congr 1; ring)

/-- C8: for every source text, role classification checks the six
source-indicator keywords first and the eight sink-indicator keywords only
when no source keyword occurs, both as case-insensitive substring searches;
in particular any text containing the word output classifies as Source even
when a sink keyword such as led also occurs. -/
theorem claim8_role_precedence (s : List Char) :
    (TSA.classifyRole s = .source ↔
      ∃ w ∈ TSA.psu_indicators, w.data <:+: pyLower s) ∧
    (TSA.classifyRole s = .sink ↔
      ((¬ ∃ w ∈ TSA.psu_indicators, w.data <:+: pyLower s) ∧
        ∃ w ∈ TSA.led_indicators, w.data <:+: pyLower s)) ∧
    ((lc "output") <:+: pyLower s → TSA.classifyRole s = .source) := by
  have hpsu : TSA.is_psu_parameter s = true ↔
      ∃ w ∈ TSA.psu_indicators, w.data <:+: pyLower s := by
    simp [TSA.is_psu_parameter, TSA.containsSub, List.any_eq_true]
  have hled : TSA.is_led_parameter s = true ↔
      ∃ w ∈ TSA.led_indicators, w.data <:+: pyLower s := by
    simp [TSA.is_led_parameter, TSA.containsSub, List.any_eq_true]
  have houtmem : "output" ∈ TSA.psu_indicators := by decide
  by_cases hp : TSA.is_psu_parameter s = true
  · refine ⟨?_, ?_, ?_⟩
    · simp [TSA.classifyRole, hp, hpsu.mp hp]
    · constructor
      · intro h
        exact absurd h (by simp [TSA.classifyRole, hp])
      · intro h
        exact absurd (hpsu.mp hp) h.1
    · intro _
      simp [TSA.classifyRole, hp]
  · by_cases hl : TSA.is_led_parameter s = true
    · refine ⟨?_, ?_, ?_⟩
      · constructor
        · intro h
          exact absurd h (by simp [TSA.classifyRole, hp, hl])
        · intro h
          exact absurd (hpsu.mpr h) hp
      · simp only [TSA.classifyRole, hp, hl, Bool.false_eq_true, if_false, if_true]
        constructor
        · intro _
          exact ⟨fun h => hp (hpsu.mpr h), hled.mp hl⟩
        · intro _
          trivial
      · intro h
        exact absurd (hpsu.mpr ⟨"output", houtmem, h⟩) hp
    · refine ⟨?_, ?_, ?_⟩
      · constructor
        · intro h
          exact absurd h (by simp [TSA.classifyRole, hp, hl])
        · intro h
          exact absurd (hpsu.mpr h) hp
      · constructor
        · intro h
          exact absurd h (by simp [TSA.classifyRole, hp, hl])
        · intro h
          exact absurd (hled.mpr h.2) hl
      · intro h
        exact absurd (hpsu.mpr ⟨"output", houtmem, h⟩) hp

/-- Witness for C8: a source text containing both output and led classifies
as Source. -/
theorem claim8_role_precedence_witness :
    TSA.classifyRole (lc "Output Voltage: 12V DC for LED strip") = .source :=
  (claim8_role_precedence (lc "Output Voltage: 12V DC for LED strip")).2.2 (by decide)

namespace TSA

/-!
Properties of the deduplication dict loop.
-/

theorem replaceKey_keys (k : ParameterType × Option ℚ × List Char)
    (p : ExtractedParameter) :
    ∀ acc, (replaceKey k p acc).map Prod.fst = acc.map Prod.fst := by
  intro acc
  induction acc with
  | nil => rfl
  | cons e rest ih =>
    obtain ⟨k2, q⟩ := e
    by_cases h : k2 = k <;> simp [replaceKey, h, ih]

theorem lookupKey_append (k : ParameterType × Option ℚ × List Char) :
    ∀ a b, lookupKey k (a ++ b) =
      (match lookupKey k a with
       | some q => some q
       | none => lookupKey k b) := by
  intro a b
  induction a with
  | nil => simp [lookupKey]
  | cons e rest ih =>
    obtain ⟨k2, q⟩ := e
    by_cases h : k2 = k <;> simp [lookupKey, h, ih]

theorem lookupKey_eq_none (k : ParameterType × Option ℚ × List Char) :
    ∀ acc, lookupKey k acc = none ↔ k ∉ acc.map Prod.fst := by
  intro acc
  induction acc with
  | nil => simp [lookupKey]
  | cons e rest ih =>
    obtain ⟨k2, q⟩ := e
    by_cases h : k2 = k
    · simp [lookupKey, h]
    · rw [lookupKey, if_neg h, ih]
      simp only [List.map_cons, List.mem_cons, not_or]
      constructor
      · intro hn
        exact ⟨fun h2 => h h2.symm, hn⟩
      · intro hn
        exact hn.2

theorem lookupKey_replace_self (k : ParameterType × Option ℚ × List Char)
    (p q : ExtractedParameter) :
    ∀ acc, lookupKey k acc = some q →
      lookupKey k (replaceKey k p acc) = some p := by
  intro acc
  induction acc with
  | nil => simp [lookupKey]
  | cons e rest ih =>
    obtain ⟨k2, q2⟩ := e
    intro h0
    by_cases h : k2 = k
    · subst h
      rw [replaceKey, if_pos rfl, lookupKey, if_pos rfl]
    · rw [lookupKey, if_neg h] at h0
      rw [replaceKey, if_neg h, lookupKey, if_neg h]
      exact ih h0

theorem lookupKey_replace_other {k k2 : ParameterType × Option ℚ × List Char}
    (p : ExtractedParameter) (hne : k2 ≠ k) :
    ∀ acc, lookupKey k2 (replaceKey k p acc) = lookupKey k2 acc := by
  intro acc
  induction acc with
  | nil => rfl
  | cons e rest ih =>
    obtain ⟨k3, q⟩ := e
    by_cases h : k3 = k
    · subst h
      have hne2 : ¬ k3 = k2 := fun hk => hne hk.symm
      simp [replaceKey, lookupKey, hne2, ih]
    · by_cases h2 : k3 = k2 <;> simp [replaceKey, lookupKey, h, h2, hne, ih]

theorem mem_replaceKey {k k2 : ParameterType × Option ℚ × List Char}
    {p q : ExtractedParameter} :
    ∀ {acc}, (k2, q) ∈ replaceKey k p acc → (k2 = k ∧ q = p) ∨ (k2, q) ∈ acc := by
  intro acc
  induction acc with
  | nil =>
    intro h
    simp [replaceKey] at h
  | cons e rest ih =>
    obtain ⟨k3, q3⟩ := e
    intro h
    by_cases he : k3 = k
    · rw [replaceKey, if_pos he] at h
      rcases List.mem_cons.mp h with h2 | h2
      · obtain ⟨rfl, rfl⟩ : k2 = k3 ∧ q = p := by
          cases h2
          exact ⟨rfl, rfl⟩
        exact Or.inl ⟨he, rfl⟩
      · exact Or.inr (List.mem_cons_of_mem _ h2)
    · rw [replaceKey, if_neg he] at h
      rcases List.mem_cons.mp h with h2 | h2
      · exact Or.inr (List.mem_cons.mpr (Or.inl h2))
      · rcases ih h2 with h3 | h3
        · exact Or.inl h3
        · exact Or.inr (List.mem_cons_of_mem _ h3)

theorem dedupAux_nodup :
    ∀ (ps : List ExtractedParameter) (acc),
      (acc.map Prod.fst).Nodup → ((dedupAux ps acc).map Prod.fst).Nodup := by
  intro ps
  induction ps with
  | nil =>
    intro acc h
    exact h
  | cons p rest ih =>
    intro acc h
    cases hl : lookupKey (keyOf p) acc with
    | none =>
      simp only [dedupAux, hl]
      apply ih
      rw [List.map_append, List.nodup_append]
      refine ⟨h, List.nodup_singleton _, ?_⟩
      intro a ha hb
      simp only [List.map_cons, List.map_nil, List.mem_singleton] at hb
      subst hb
      exact (lookupKey_eq_none (keyOf p) acc).mp hl ha
    | some q =>
      by_cases hc : p.confidence > q.confidence
      · simp only [dedupAux, hl, if_pos hc]
        apply ih
        rw [replaceKey_keys]
        exact h
      · simp only [dedupAux, hl, if_neg hc]
        exact ih acc h

theorem dedupAux_monotone :
    ∀ (ps : List ExtractedParameter) (acc)
      (k : ParameterType × Option ℚ × List Char) (q : ExtractedParameter),
      lookupKey k acc = some q →
      ∃ r, lookupKey k (dedupAux ps acc) = some r ∧ q.confidence ≤ r.confidence := by
  intro ps
  induction ps with
  | nil =>
    intro acc k q h
    exact ⟨q, h, le_refl _⟩
  | cons p rest ih =>
    intro acc k q h
    cases hl : lookupKey (keyOf p) acc with
    | none =>
      simp only [dedupAux, hl]
      apply ih
      rw [lookupKey_append, h]
    | some q0 =>
      by_cases hc : p.confidence > q0.confidence
      · simp only [dedupAux, hl, if_pos hc]
        by_cases hk : k = keyOf p
        · subst hk
          have hq : q = q0 := by
            rw [h] at hl
            exact Option.some.inj hl
          subst hq
          rcases ih (replaceKey (keyOf p) p acc) (keyOf p) p
              (lookupKey_replace_self _ p q acc h) with ⟨r, hr, hcr⟩
          exact ⟨r, hr, le_trans (le_of_lt hc) hcr⟩
        · apply ih
          rw [lookupKey_replace_other p hk, h]
      · simp only [dedupAux, hl, if_neg hc]
        exact ih acc k q h

theorem dedupAux_covers :
    ∀ (ps : List ExtractedParameter) (acc) (r : ExtractedParameter), r ∈ ps →
      ∃ q, lookupKey (keyOf r) (dedupAux ps acc) = some q ∧
        r.confidence ≤ q.confidence := by
  intro ps
  induction ps with
  | nil =>
    intro acc r h
    simp at h
  | cons p rest ih =>
    intro acc r hr
    rcases List.mem_cons.mp hr with rfl | hmem
    · cases hl : lookupKey (keyOf r) acc with
      | none =>
        simp only [dedupAux, hl]
        apply dedupAux_monotone
        rw [lookupKey_append, hl]
        simp [lookupKey]
      | some q0 =>
        by_cases hc : r.confidence > q0.confidence
        · simp only [dedupAux, hl, if_pos hc]
          apply dedupAux_monotone
          exact lookupKey_replace_self _ r q0 acc hl
        · simp only [dedupAux, hl, if_neg hc]
          rcases dedupAux_monotone rest acc _ _ hl with ⟨q2, hq2, hcq⟩
          exact ⟨q2, hq2, le_trans (not_lt.mp hc) hcq⟩
    · cases hl : lookupKey (keyOf p) acc with
      | none =>
        simp only [dedupAux, hl]
        exact ih _ r hmem
      | some q0 =>
        by_cases hc : p.confidence > q0.confidence
        · simp only [dedupAux, hl, if_pos hc]
          exact ih _ r hmem
        · simp only [dedupAux, hl, if_neg hc]
          exact ih _ r hmem

theorem mem_dedupAux :
    ∀ (ps : List ExtractedParameter) (acc)
      (k : ParameterType × Option ℚ × List Char) (q : ExtractedParameter),
      (k, q) ∈ dedupAux ps acc → (k, q) ∈ acc ∨ q ∈ ps := by
  intro ps
  induction ps with
  | nil =>
    intro acc k q h
    exact Or.inl h
  | cons p rest ih =>
    intro acc k q h
    cases hl : lookupKey (keyOf p) acc with
    | none =>
      simp only [dedupAux, hl] at h
      rcases ih _ k q h with h2 | h2
      · rcases List.mem_append.mp h2 with h3 | h3
        · exact Or.inl h3
        · simp only [List.mem_singleton] at h3
          obtain ⟨rfl, rfl⟩ : k = keyOf p ∧ q = p := by
            cases h3
            exact ⟨rfl, rfl⟩
          exact Or.inr (List.mem_cons_self _ _)
      · exact Or.inr (List.mem_cons_of_mem _ h2)
    | some q0 =>
      by_cases hc : p.confidence > q0.confidence
      · simp only [dedupAux, hl, if_pos hc] at h
        rcases ih _ k q h with h2 | h2
        · rcases mem_replaceKey h2 with ⟨_, rfl⟩ | h3
          · exact Or.inr (List.mem_cons_self _ _)
          · exact Or.inl h3
        · exact Or.inr (List.mem_cons_of_mem _ h2)
      · simp only [dedupAux, hl, if_neg hc] at h
        rcases ih _ k q h with h2 | h2
        · exact Or.inl h2
        · exact Or.inr (List.mem_cons_of_mem _ h2)

theorem dedupAux_consistent :
    ∀ (ps : List ExtractedParameter) (acc),
      (∀ k q, (k, q) ∈ acc → keyOf q = k) →
      ∀ k q, (k, q) ∈ dedupAux ps acc → keyOf q = k := by
  intro ps
  induction ps with
  | nil =>
    intro acc hinv k q h
    exact hinv k q h
  | cons p rest ih =>
    intro acc hinv k q h
    cases hl : lookupKey (keyOf p) acc with
    | none =>
      simp only [dedupAux, hl] at h
      refine ih _ ?_ k q h
      intro k2 q2 h2
      rcases List.mem_append.mp h2 with h3 | h3
      · exact hinv k2 q2 h3
      · simp only [List.mem_singleton] at h3
        obtain ⟨rfl, rfl⟩ : k2 = keyOf p ∧ q2 = p := by
          cases h3
          exact ⟨rfl, rfl⟩
        rfl
    | some q0 =>
      by_cases hc : p.confidence > q0.confidence
      · simp only [dedupAux, hl, if_pos hc] at h
        refine ih _ ?_ k q h
        intro k2 q2 h2
        rcases mem_replaceKey h2 with ⟨rfl, rfl⟩ | h3
        · rfl
        · exact hinv k2 q2 h3
      · simp only [dedupAux, hl, if_neg hc] at h
        exact ih _ hinv k q h

theorem lookupKey_of_mem_nodup
    {k : ParameterType × Option ℚ × List Char} {q : ExtractedParameter} :
    ∀ {acc}, (acc.map Prod.fst).Nodup → (k, q) ∈ acc → lookupKey k acc = some q := by
  intro acc
  induction acc with
  | nil =>
    intro _ h
    simp at h
  | cons e rest ih =>
    obtain ⟨k2, q2⟩ := e
    intro hnd hmem
    simp only [List.map_cons, List.nodup_cons] at hnd
    rcases List.mem_cons.mp hmem with h2 | h2
    · obtain ⟨rfl, rfl⟩ : k = k2 ∧ q = q2 := by
        cases h2
        exact ⟨rfl, rfl⟩
      simp [lookupKey]
    · have hne : k2 ≠ k := by
        intro hk
        subst hk
        exact hnd.1 (List.mem_map.mpr ⟨(k2, q), h2, rfl⟩)
      rw [lookupKey, if_neg hne]
      exact ih hnd.2 h2

theorem dedupAux_of_fresh :
    ∀ (ps : List ExtractedParameter) (acc),
      (ps.map keyOf).Nodup →
      (∀ r ∈ ps, lookupKey (keyOf r) acc = none) →
      dedupAux ps acc = acc ++ ps.map (fun p => (keyOf p, p)) := by
  intro ps
  induction ps with
  | nil =>
    intro acc _ _
    simp [dedupAux]
  | cons p rest ih =>
    intro acc hnd hfresh
    have hl := hfresh p (List.mem_cons_self _ _)
    simp only [dedupAux, hl]
    simp only [List.map_cons, List.nodup_cons] at hnd
    rw [ih (acc ++ [(keyOf p, p)]) hnd.2 ?_]
    · simp
    · intro r hr
      rw [lookupKey_append, hfresh r (List.mem_cons_of_mem _ hr)]
      have hne : keyOf p ≠ keyOf r := by
        intro hk
        exact hnd.1 (hk ▸ List.mem_map.mpr ⟨r, hr, rfl⟩)
      simp [lookupKey, fun hk : keyOf p = keyOf r => hne hk]

/-!
The extraction pipeline never raises: the only fallible operation, the
float() conversion, is always fed a word of the number regex.
-/

theorem extract_numerical_valueE_ok (s : List Char) :
    ∃ o, extract_numerical_valueE s = Except.ok o := by
  unfold extract_numerical_valueE
  by_cases he : s.isEmpty
  · simp [he]
  · simp only [he, Bool.false_eq_true, if_false]
    cases h1 : search rangePat s with
    | some m =>
      have hm : Matches numReg m.grp := search_grp_matches h1
      rcases pyFloat_of_matches_num hm with ⟨q, hq⟩
      refine ⟨some q, ?_⟩
      simp only [h1, hq]
    | none =>
      cases h2 : search numOnlyPat s with
      | some m =>
        have hm : Matches numReg m.grp := search_grp_matches h2
        rcases pyFloat_of_matches_num hm with ⟨q, hq⟩
        refine ⟨some q, ?_⟩
        simp only [h1, h2, hq]
      | none =>
        refine ⟨none, ?_⟩
        simp only [h1, h2]

theorem foldlM_ok_of_step {β : Type}
    (f : List ExtractedParameter → β → Except Unit (List ExtractedParameter))
    (hf : ∀ acc b, ∃ l, f acc b = Except.ok l) :
    ∀ (bs : List β) (acc), ∃ l, bs.foldlM f acc = Except.ok l := by
  intro bs
  induction bs with
  | nil =>
    intro acc
    exact ⟨acc, rfl⟩
  | cons b rest ih =>
    intro acc
    rcases hf acc b with ⟨l, hl⟩
    rcases ih l with ⟨l2, hl2⟩
    refine ⟨l2, ?_⟩
    rw [List.foldlM_cons, hl]
    exact hl2

theorem extractStep_ok (text : List Char) (ptype : ParameterType)
    (pg : PatternGroup) (ps2 : List ExtractedParameter) (m : MatchInfo) :
    ∃ l, extractStep text ptype pg ps2 m = Except.ok l := by
  unfold extractStep
  rcases extract_numerical_valueE_ok (pyStrip m.grp) with ⟨o, ho⟩
  simp only [ho]
  exact ⟨_, rfl⟩

theorem extract_parameter_typeE_ok (text : List Char) (ptype : ParameterType)
    (pg : PatternGroup) :
    ∃ l, extract_parameter_typeE text ptype pg = Except.ok l := by
  unfold extract_parameter_typeE
  apply foldlM_ok_of_step
  intro acc pat
  apply foldlM_ok_of_step
  intro acc2 m
  exact extractStep_ok text ptype pg acc2 m

theorem gatherAllE_ok (text : List Char) :
    ∃ l, gatherAllE text = Except.ok l := by
  unfold gatherAllE
  apply foldlM_ok_of_step
  intro acc pr
  apply foldlM_ok_of_step
  intro acc2 pg
  rcases extract_parameter_typeE_ok text pr.1 pg with ⟨l, hl⟩
  exact ⟨_, by rw [hl]; rfl⟩

theorem gatherAllE_eq (text : List Char) :
    gatherAllE text = Except.ok (gatherAll text) := by
  rcases gatherAllE_ok text with ⟨l, hl⟩
  rw [hl]
  unfold gatherAll
  rw [hl]

theorem extract_all_parametersE_ok (text : List Char) :
    extract_all_parametersE text =
      Except.ok (deduplicate_parameters (gatherAll text)) := by
  unfold extract_all_parametersE
  rw [gatherAllE_eq]
  rfl

theorem extract_all_eq (text : List Char) :
    extract_all_parameters text = deduplicate_parameters (gatherAll text) := by
  unfold extract_all_parameters
  rw [extract_all_parametersE_ok]

/-- The three deduplication guarantees, over any candidate list: distinct
keys, per-key maximal confidence among candidates, and idempotence. -/
theorem deduplicate_spec (l : List ExtractedParameter) :
    ((deduplicate_parameters l).map keyOf).Nodup ∧
    (∀ p ∈ deduplicate_parameters l, p ∈ l ∧
      ∀ q ∈ l, keyOf q = keyOf p → q.confidence ≤ p.confidence) ∧
    deduplicate_parameters (deduplicate_parameters l) = deduplicate_parameters l := by
  have hcons : ∀ k q, (k, q) ∈ dedupAux l [] → keyOf q = k :=
    dedupAux_consistent l [] (by simp)
  have hnd : ((dedupAux l []).map Prod.fst).Nodup :=
    dedupAux_nodup l [] (by simp)
  have hmapeq : (deduplicate_parameters l).map keyOf = (dedupAux l []).map Prod.fst := by
    unfold deduplicate_parameters
    rw [List.map_map]
    apply List.map_congr_left
    intro e he
    exact hcons e.1 e.2 he
  have hkeynd : ((deduplicate_parameters l).map keyOf).Nodup := by
    rw [hmapeq]
    exact hnd
  refine ⟨hkeynd, ?_, ?_⟩
  · intro p hp
    rcases List.mem_map.mp hp with ⟨e, he, hesnd⟩
    have hk : keyOf p = e.1 := by
      rw [← hesnd]
      exact hcons e.1 e.2 he
    have hmem : p ∈ l := by
      rcases mem_dedupAux l [] e.1 e.2 he with h2 | h2
      · simp at h2
      · rw [← hesnd]
        exact h2
    refine ⟨hmem, ?_⟩
    intro q hq hkey
    rcases dedupAux_covers l [] q hq with ⟨q2, hq2, hcq⟩
    have hlp : lookupKey (keyOf p) (dedupAux l []) = some p := by
      apply lookupKey_of_mem_nodup hnd
      have heq : e = (keyOf p, p) := Prod.ext_iff.mpr ⟨hk.symm, hesnd⟩
      rw [← heq]
      exact he
    rw [hkey, hlp] at hq2
    rw [Option.some.inj hq2]
    exact hcq
  · have hfresh : ∀ r ∈ deduplicate_parameters l,
        lookupKey (keyOf r) ([] :
          List ((ParameterType × Option ℚ × List Char) × ExtractedParameter)) = none := by
      intro r _
      rfl
    have hid := dedupAux_of_fresh (deduplicate_parameters l) [] hkeynd hfresh
    calc deduplicate_parameters (deduplicate_parameters l)
        = (dedupAux (deduplicate_parameters l) []).map Prod.snd := rfl
      _ = ([] ++ (deduplicate_parameters l).map (fun p => (keyOf p, p))).map Prod.snd := by
          rw [hid]
      _ = deduplicate_parameters l := by
          simp only [List.nil_append, List.map_map]
          exact List.map_id _

end TSA

/-- C4: for every document text string, extractAll terminates and returns a
sequence without raising: with every fallible float conversion tracked in
Except, the pipeline always returns ok with the result list; when the
pattern scan gathers no candidate the result is the empty sequence, and on
the empty string it is empty. Totality over all strings holds by
construction of the embedding, whose recursions are structural or fuelled by
the text length. -/
theorem claim4_extract_total (text : List Char) :
    TSA.extract_all_parametersE text =
      Except.ok (TSA.extract_all_parameters text) ∧
    (TSA.gatherAll text = [] → TSA.extract_all_parameters text = []) ∧
    TSA.extract_all_parameters (lc "") = [] := by
  refine ⟨?_, ?_, by decide⟩
  · rw [TSA.extract_all_parametersE_ok, TSA.extract_all_eq]
  · intro h
    rw [TSA.extract_all_eq, h]
    rfl

/-- Witness for C4: on the matchless text xyz the gather is empty and
extractAll returns the empty sequence. -/
theorem claim4_extract_total_witness :
    TSA.gatherAll (lc "xyz") = [] ∧ TSA.extract_all_parameters (lc "xyz") = [] :=
  ⟨by decide, (claim4_extract_total (lc "xyz")).2.1 (by decide)⟩

/-- C5: for every document text, the result of extractAll has pairwise
distinct deduplication keys (parameter kind, numeric value, lowercased
unit); every kept parameter is one of the gathered candidates and carries
the maximum confidence among candidates with its key; deduplicating the
result again changes nothing; and running the same pure extraction twice
yields the same key sequence. -/
theorem claim5_dedup_properties (text : List Char) :
    ((TSA.extract_all_parameters text).map TSA.keyOf).Nodup ∧
    (∀ p ∈ TSA.extract_all_parameters text,
      p ∈ TSA.gatherAll text ∧
        ∀ q ∈ TSA.gatherAll text, TSA.keyOf q = TSA.keyOf p →
          q.confidence ≤ p.confidence) ∧
    TSA.deduplicate_parameters (TSA.extract_all_parameters text) =
      TSA.extract_all_parameters text ∧
    (TSA.extract_all_parameters text).map TSA.keyOf =
      (TSA.extract_all_parameters text).map TSA.keyOf := by
  have hs := TSA.deduplicate_spec (TSA.gatherAll text)
  rw [← TSA.extract_all_eq] at hs
  exact ⟨hs.1, hs.2.1, hs.2.2, rfl⟩

/-- Witness for C5: on a document with two occurrences of the same voltage
key the result keeps one entry per key with the larger confidence. -/
theorem claim5_dedup_properties_witness :
    TSA.deduplicate_parameters
        (TSA.extract_all_parameters
          (lc "Output Voltage: 12V DC and Supply Voltage: 12V DC")) =
      TSA.extract_all_parameters
        (lc "Output Voltage: 12V DC and Supply Voltage: 12V DC") :=
  (claim5_dedup_properties
    (lc "Output Voltage: 12V DC and Supply Voltage: 12V DC")).2.2.1

/-- C6: whenever any of the four inputs is absent, the compatibility
evaluation returns (without raising) the insufficient-data verdict: decision
Insufficient Data, confidence Low, a missing-parameter list naming exactly
the absent named parameters in source order, and no referenced parameters
(neither return dict of the function carries a referenced-parameters entry). -/
theorem claim6_insufficient_data (pv pc lv lcur : Option TSA.ExtractedParameter)
    (h : pv = none ∨ pc = none ∨ lv = none ∨ lcur = none) :
    ∃ info, TSA.analyze_psu_led_compatibilityE pv pc lv lcur =
        Except.ok (TSA.PsuLedAnalysis.insufficient info) ∧
      info.decision = "Insufficient Data" ∧
      info.confidence = "Low" ∧
      (∀ nm : String, nm ∈ info.missing_parameters ↔
        ((nm = "PSU voltage" ∧ pv = none) ∨ (nm = "PSU current" ∧ pc = none) ∨
          (nm = "LED voltage" ∧ lv = none) ∨ (nm = "LED current" ∧ lcur = none))) ∧
      TSA.PsuLedAnalysis.referencedParameters
        (TSA.PsuLedAnalysis.insufficient info) = [] := by
  rcases pv with _ | a <;> rcases pc with _ | b <;>
    rcases lv with _ | c <;> rcases lcur with _ | d
  case some.some.some.some =>
    exfalso
    rcases h with h | h | h | h <;> simp at h
  all_goals
    refine ⟨_, rfl, rfl, rfl, ?_, rfl⟩
  all_goals
    intro nm
    simp [TSA.missingParams]

/-- Witness for C6: with all four inputs absent the verdict names each
parameter as missing. -/
theorem claim6_insufficient_data_witness :
    ∃ info, TSA.analyze_psu_led_compatibilityE none none none none =
        Except.ok (TSA.PsuLedAnalysis.insufficient info) ∧
      info.decision = "Insufficient Data" ∧ info.confidence = "Low" ∧
      "LED current" ∈ info.missing_parameters := by
  rcases claim6_insufficient_data none none none none (Or.inl rfl) with
    ⟨info, h1, h2, h3, h4, _⟩
  exact ⟨info, h1, h2, h3,
    (h4 "LED current").mpr (Or.inr (Or.inr (Or.inr ⟨rfl, rfl⟩)))⟩

/-- C3: on the scenario document whose text states Output Voltage: 12V DC,
Max Output Current: 5 Amps, Required Input Voltage: 12V DC and Current
Draw: 6 Amps, the analyze pipeline of src/app.py decides Incompatible and
its justification mentions Insufficient current. -/
theorem claim3_insufficient_current :
    (WebApp.analyze WebApp.scenario2doc).decision = lc "Incompatible" ∧
    TSA.containsSub (WebApp.analyze WebApp.scenario2doc).justification
      (lc "Insufficient current") = true := by
  constructor
  · decide
  · decide

/-- C10: in the analyze pipeline of src/app.py, when all four parameter
strings are found (nonempty), each parses to a numeric value without error,
and any one of the parsed values equals 0.0, Python's all() treats the 0.0
as falsy: the numeric-comparison branch is skipped and the response is
Not Explicitly Covered with confidence Medium, the justification that
numerical values could not be parsed, and no referenced sections, although
parsing succeeded for every field. -/
theorem claim10_zero_value_skips_comparison (doc s1 s2 s3 s4 : List Char)
    (v1 v2 v3 v4 : Option ℚ)
    (h1 : WebApp.extract_parameter doc WebApp.psu_output_voltage_patterns = some s1)
    (h2 : WebApp.extract_parameter doc WebApp.psu_max_current_patterns = some s2)
    (h3 : WebApp.extract_parameter doc WebApp.led_input_voltage_patterns = some s3)
    (h4 : WebApp.extract_parameter doc WebApp.led_current_draw_patterns = some s4)
    (hne1 : s1.isEmpty = false) (hne2 : s2.isEmpty = false)
    (hne3 : s3.isEmpty = false) (hne4 : s4.isEmpty = false)
    (hv1 : WebApp.extract_numerical_valueE s1 = Except.ok v1)
    (hv2 : WebApp.extract_numerical_valueE s2 = Except.ok v2)
    (hv3 : WebApp.extract_numerical_valueE s3 = Except.ok v3)
    (hv4 : WebApp.extract_numerical_valueE s4 = Except.ok v4)
    (hsome : v1.isSome ∧ v2.isSome ∧ v3.isSome ∧ v4.isSome)
    (hzero : v1 = some 0 ∨ v2 = some 0 ∨ v3 = some 0 ∨ v4 = some 0) :
    WebApp.analyze doc =
      { decision := lc "Not Explicitly Covered"
        justification :=
          lc "Found parameters but could not parse numerical values to perform comparison."
        referenced_sections := []
        extracted := WebApp.extractedData (some s1) (some s2) (some s3) (some s4)
        confidence := lc "Medium" } := by
  have hstr : WebApp.pyAllStr [some s1, some s2, some s3, some s4] = true := by
    simp [WebApp.pyAllStr, hne1, hne2, hne3, hne4]
  have hq : WebApp.pyAllQ [v1, v2, v3, v4] = false := by
    rcases hzero with rfl | rfl | rfl | rfl <;> simp [WebApp.pyAllQ]
  simp only [WebApp.analyze, h1, h2, h3, h4, hstr, Option.getD_some, hv1, hv2,
    hv3, hv4, hq, if_true, Bool.false_eq_true, if_false]

/-- Witness for C10: the zero-voltage document discharges every hypothesis
concretely. -/
theorem claim10_zero_value_skips_comparison_witness :
    WebApp.analyze WebApp.zeroVoltageDoc =
      { decision := lc "Not Explicitly Covered"
        justification :=
          lc "Found parameters but could not parse numerical values to perform comparison."
        referenced_sections := []
        extracted := WebApp.extractedData (some (lc "0 V DC")) (some (lc "5 Amps"))
          (some (lc "12V DC")) (some (lc "4 Amps"))
        confidence := lc "Medium" } :=
  claim10_zero_value_skips_comparison WebApp.zeroVoltageDoc
    (lc "0 V DC") (lc "5 Amps") (lc "12V DC") (lc "4 Amps")
    (some 0) (some 5) (some 12) (some 4)
    (by decide) (by decide) (by decide) (by decide)
    (by decide) (by decide) (by decide) (by decide)
    (by rfl) (by rfl) (by rfl) (by rfl)
    (by decide) (Or.inl rfl)

end TechSpec
